import Mathlib

/-!
# Verification of the Talkscriber ts-client repository

Shallow embedding, in Lean 4, of the parts of the `ts-client` Python
repository that its specification makes checkable claims about:

* `benchmark_ttft.py` — the `calculate_percentile` estimator and the
  statistics phase of `run_benchmark` (numbers are modelled by `ℚ`;
  Python list indexing, which raises `IndexError` when out of range, is
  modelled by `Option`-returning lookups, and a raised exception is
  modelled by a `none` result);
* `talkscriber/stt/batch_client.py` — the
  `wait_for_job_completion` polling loop (wall-clock time is abstracted
  to a discrete clock that advances by `poll_interval` once per loop
  iteration, which is exactly the `time.sleep(poll_interval)` executed
  on every non-terminal path; the outcome of the `k`-th status fetch is
  an oracle parameter);
* `python/ts_live/client.py` — the live `Client`: its handshake
  construction (`on_open`), inbound message handling (`on_message`,
  `_handle_transcription`) and the outbound trace produced by the
  recording loop, modelled as a state machine driven by a list of
  events.
-/

namespace TsClient

/-! ## `benchmark_ttft.py` -/

/-- Python `int(q)`: truncation of a rational toward zero. -/
def truncQ (q : ℚ) : ℤ :=
  if 0 ≤ q then ⌊q⌋ else -⌊-q⌋

/-- Python list indexing `xs[i]` for a possibly negative index `i`:
a negative index counts from the end of the list, and an index that is
still out of range raises `IndexError` (modelled by `none`). -/
def pyIndex (xs : List ℚ) (i : ℤ) : Option ℚ :=
  if i < 0 then
    if (xs.length : ℤ) + i < 0 then none else xs[((xs.length : ℤ) + i).toNat]?
  else xs[i.toNat]?

/-- `calculate_percentile(data, percentile)` from `benchmark_ttft.py`:
empty data yields `0.0`; otherwise the value is linearly interpolated
between the two nearest ranks of the sorted data.  `sorted(data)` is
modelled by `List.insertionSort (· ≤ ·)` (on `ℚ` the sorted permutation
is unique, so any stable ascending sort is extensionally Python's
`sorted`).  A `none` result models an `IndexError`. -/
def calculate_percentile (data : List ℚ) (percentile : ℚ) : Option ℚ :=
  if data.isEmpty then some 0
  else
    let sorted_data := data.insertionSort (· ≤ ·)
    let index : ℚ := ((sorted_data.length : ℚ) - 1) * percentile / 100
    let lower : ℤ := truncQ index
    let upper : ℤ := lower + 1
    let weight : ℚ := index - (lower : ℚ)
    if (sorted_data.length : ℤ) ≤ upper then pyIndex sorted_data lower
    else do
      let a ← pyIndex sorted_data lower
      let b ← pyIndex sorted_data upper
      pure (a * (1 - weight) + b * weight)

/-- Python `statistics.mean`: raises (`none`) on an empty list. -/
def meanQ (l : List ℚ) : Option ℚ :=
  if l = [] then none else some (l.sum / (l.length : ℚ))

/-- Python `statistics.median`: raises (`none`) on an empty list;
middle element of the sorted data for odd length, average of the two
middle elements for even length. -/
def medianQ (l : List ℚ) : Option ℚ :=
  if l = [] then none
  else
    let s := l.insertionSort (· ≤ ·)
    let n := s.length
    if n % 2 = 1 then s[n / 2]?
    else do
      let a ← s[n / 2 - 1]?
      let b ← s[n / 2]?
      pure ((a + b) / 2)

/-- The sample variance underlying Python `statistics.stdev`, which
raises (`none`) on fewer than two samples.  `statistics.stdev` itself
returns the square root of this value; the square root of a rational is
irrational in general, so the model carries the variance (the square of
the reported standard deviation) — the square root is a strictly
monotone bijection on nonnegative values, so it is zero exactly when
the variance is. -/
def sampleVariance (l : List ℚ) : Option ℚ :=
  if l.length < 2 then none
  else
    match meanQ l with
    | none => none
    | some m => some ((l.map (fun x => (x - m) ^ 2)).sum / ((l.length : ℚ) - 1))

/-- The statistics computed by `run_benchmark` (lines 114–126 of
`benchmark_ttft.py`); `std_dev_sq` is the square of the reported
standard deviation (see `sampleVariance`). -/
structure BenchmarkStats where
  p50 : ℚ
  p95 : ℚ
  p99 : ℚ
  mean : ℚ
  median : ℚ
  std_dev_sq : ℚ
  min : ℚ
  max : ℚ
deriving DecidableEq, Repr

/-- The statistics phase of `run_benchmark`: when no measurements were
collected it prints an error and returns `False` without computing any
statistic (modelled by `none`); otherwise it computes the percentiles,
mean, median, standard deviation (zero when there are fewer than two
samples) and min/max.  Python `min`/`max` raise on an empty list, which
is modelled by `List.min?`/`List.max?` bound in the `Option` monad. -/
def benchmarkReport (ttft_measurements : List ℚ) : Option BenchmarkStats :=
  if ttft_measurements = [] then none
  else do
    let p50 ← calculate_percentile ttft_measurements 50
    let p95 ← calculate_percentile ttft_measurements 95
    let p99 ← calculate_percentile ttft_measurements 99
    let mean ← meanQ ttft_measurements
    let median ← medianQ ttft_measurements
    let std_dev_sq ←
      if 1 < ttft_measurements.length then sampleVariance ttft_measurements
      else some 0
    let mn ← ttft_measurements.min?
    let mx ← ttft_measurements.max?
    pure { p50 := p50, p95 := p95, p99 := p99, mean := mean, median := median,
           std_dev_sq := std_dev_sq, min := mn, max := mx }

/-! ## `talkscriber/stt/batch_client.py` -/

/-- The JSON dict returned by the status endpoint, modelled as an
association list of string keys and values; `d.get("status")` is
`d.lookup "status"`. -/
abbrev JobDict := List (String × String)

/-- Outcome of one call to `get_batch_job_status`: either the decoded
response dict, or a raised exception (message only). -/
inductive FetchOutcome where
  | ok (d : JobDict)
  | err (msg : String)
deriving DecidableEq, Repr

/-- Result of `wait_for_job_completion`: the final job-status dict on
`"DONE"`, the exception `"Job failed with status: s"` on a failure
status, or the exception `"Job timed out after t seconds"` once the
deadline is exceeded. -/
inductive PollResult where
  | completed (d : JobDict)
  | jobFailed (s : String)
  | timedOut (t : ℕ)
deriving DecidableEq, Repr

/-- The failure statuses recognised by `wait_for_job_completion`
(lines 182–186 of `batch_client.py`). -/
def failureStatuses : List String :=
  ["FAILED_TS_TRANSCRIBE", "FAILED", "FAILED_TRANSCRIBE"]

/-- `wait_for_job_completion(job_id, poll_interval, timeout)`.
`fetch k` is the outcome of the status fetch performed in the `k`-th
loop iteration; each iteration sleeps `poll_interval` seconds on every
non-terminal path, so at the top of iteration `k` the elapsed time is
`k * poll_interval` (fetch durations are abstracted to zero).  The
loop: raise the timeout exception when `elapsed > timeout`; a failed
fetch is printed and absorbed, and the loop retries after the poll
interval; a fetched `"DONE"` returns the dict; a fetched failure status
raises; any other fetched status (including a missing `"status"` key)
continues polling.  `fuel` bounds the recursion; `none` means the fuel
ran out before the loop decided. -/
def wait_for_job_completion (fetch : ℕ → FetchOutcome)
    (poll_interval timeout : ℕ) : ℕ → ℕ → Option PollResult
  | 0, _ => none
  | fuel + 1, k =>
    if timeout < k * poll_interval then some (.timedOut timeout)
    else
      match fetch k with
      | .err _ => wait_for_job_completion fetch poll_interval timeout fuel (k + 1)
      | .ok d =>
        match d.lookup "status" with
        | none => wait_for_job_completion fetch poll_interval timeout fuel (k + 1)
        | some s =>
          if s = "DONE" then some (.completed d)
          else if s ∈ failureStatuses then some (.jobFailed s)
          else wait_for_job_completion fetch poll_interval timeout fuel (k + 1)

/-- A fetch outcome that does not terminate the polling loop: a raised
fetch error, a dict without a `"status"` key, or a status that is
neither `"DONE"` nor one of the failure statuses. -/
def isNonterminal : FetchOutcome → Bool
  | .err _ => true
  | .ok d =>
    match d.lookup "status" with
    | none => true
    | some s => !(s = "DONE" : Bool) && !(failureStatuses.contains s)

/-! ## `python/ts_live/client.py` -/

/-- The `ServerConfig` pydantic model. -/
structure ServerConfig where
  host : String
  port : ℕ
  api_key : String
  multilingual : Bool := false
  language : Option String := some "en"
  translate : Bool := false
deriving DecidableEq, Repr

/-- The `TranscriptionSegment` pydantic model. -/
structure TranscriptionSegment where
  text : String
  start : ℚ
  «end» : ℚ
deriving DecidableEq, Repr

/-- The `ServerMessage` pydantic model. -/
structure ServerMessage where
  session_id : Option String := none
  status : Option String := none
  message : Option String := none
  segments : Option (List TranscriptionSegment) := none
  language : Option String := none
  language_confidence : Option ℚ := none
deriving DecidableEq, Repr

/-- The JSON handshake built in `Client.on_open`. -/
structure AuthMessage where
  uid : String
  multilingual : Bool
  language : Option String
  task : String
  auth : String
deriving DecidableEq, Repr

/-- The `auth_message` dict constructed by `Client.on_open` from the
client's configuration and current session id. -/
def mkAuthMessage (config : ServerConfig) (session_id : String) : AuthMessage :=
  { uid := session_id
    multilingual := config.multilingual
    language := config.language
    task := if config.translate then "translate" else "transcribe"
    auth := config.api_key }

/-- One step of the accumulation loop in `Client._handle_transcription`:
`if not transcript or transcript[-1] != segment.text:
transcript.append(segment.text)`. -/
def dedupAppend (transcript : List String) (text : String) : List String :=
  if transcript = [] ∨ transcript.getLast? ≠ some text then transcript ++ [text]
  else transcript

/-- The deduplicated transcript accumulated by
`Client._handle_transcription` before truncation: the loop starts from
a fresh local `transcript = []` on every call. -/
def dedupTranscript (segments : List TranscriptionSegment) : List String :=
  segments.foldl (fun t seg => dedupAppend t seg.text) []

/-- `Client._handle_transcription(segments)`: deduplicate consecutive
repeats, then keep only the last three entries
(`transcript = transcript[-3:]` when longer than three).  The returned
list is the displayed transcript buffer. -/
def handle_transcription (segments : List TranscriptionSegment) : List String :=
  let transcript := dedupTranscript segments
  if 3 < transcript.length then transcript.drop (transcript.length - 3)
  else transcript

/-- A message sent by the client over the WebSocket: the JSON handshake
(text frame, sent by `on_open`) or one binary audio chunk (sent by
`stream_audio_packet` from the `record` loop; the payload is abstracted
to an identifier). -/
inductive OutMsg where
  | handshake (m : AuthMessage)
  | chunk (data : ℕ)
deriving DecidableEq, Repr

/-- Whether an outbound message is a binary audio chunk. -/
def OutMsg.isChunk : OutMsg → Bool
  | .handshake _ => false
  | .chunk _ => true

/-- The mutable `Client` state that the claims depend on: the session
id, the `is_recording` / `is_waiting` gates, the ordered trace of
messages sent over the socket, and the currently displayed transcript
buffer (the console is cleared and rewritten on every transcription
batch). -/
structure ClientState where
  session_id : String
  is_recording : Bool
  is_waiting : Bool
  sent : List OutMsg
  displayed : List String
deriving DecidableEq, Repr

/-- The state built by `Client.__init__`: a fresh uid, both gates off,
nothing sent, nothing displayed. -/
def initial_state (uid : String) : ClientState :=
  { session_id := uid
    is_recording := false
    is_waiting := false
    sent := []
    displayed := [] }

/-- `Client.on_message`: adopt a server-issued session id (Python
truthiness: only a non-empty string replaces the current id), set the
wait gate on `"WAIT"`, stop recording on `"DISCONNECT"`, start
recording on `"SERVER_READY"`, and hand a non-empty segment batch to
`_handle_transcription` (Python truthiness: `if server_message.segments:`
is false for both `None` and `[]`). -/
def on_message (st : ClientState) (m : ServerMessage) : ClientState :=
  let st1 :=
    match m.session_id with
    | some sid =>
      if sid ≠ "" ∧ sid ≠ st.session_id then { st with session_id := sid } else st
    | none => st
  let st2 := if m.status = some "WAIT" then { st1 with is_waiting := true } else st1
  let st3 :=
    if m.message = some "DISCONNECT" then { st2 with is_recording := false } else st2
  let st4 :=
    if m.message = some "SERVER_READY" then { st3 with is_recording := true } else st3
  match m.segments with
  | some segs =>
    if segs ≠ [] then { st4 with displayed := handle_transcription segs } else st4
  | none => st4

/-- An event driving the client: the WebSocket open callback, an
inbound server message, or one microphone read inside the `record`
loop. -/
inductive ClientEvent where
  | socketOpen
  | serverMessage (m : ServerMessage)
  | audioChunk (data : ℕ)
deriving DecidableEq, Repr

/-- Whether an event is the socket-open callback. -/
def ClientEvent.isOpen : ClientEvent → Bool
  | .socketOpen => true
  | _ => false

/-- Whether an event is an inbound server message. -/
def ClientEvent.isServerMessage : ClientEvent → Bool
  | .serverMessage _ => true
  | _ => false

/-- One step of the client: `on_open` sends the handshake built from
the current config and session id; an inbound message is handled by
`on_message`; a microphone read streams one binary chunk, but only
while `is_recording` holds (the body of `record`'s
`while self.is_recording` loop). -/
def step (config : ServerConfig) (st : ClientState) (e : ClientEvent) : ClientState :=
  match e with
  | .socketOpen =>
    { st with sent := st.sent ++ [.handshake (mkAuthMessage config st.session_id)] }
  | .serverMessage m => on_message st m
  | .audioChunk d =>
    if st.is_recording then { st with sent := st.sent ++ [.chunk d] } else st

/-- Run the client over an ordered trace of events. -/
def runClient (config : ServerConfig) (st : ClientState)
    (events : List ClientEvent) : ClientState :=
  events.foldl (step config) st

/-! ## Theorems about the batch polling loop -/

/-- Helper for the timeout behaviour of `wait_for_job_completion`:
with a positive poll interval and every fetch inside the deadline
non-terminal, the loop (given enough fuel) raises the timeout
exception. -/
theorem wait_timeout_of_nonterminal (fetch : ℕ → FetchOutcome)
    (poll_interval timeout : ℕ) (hpi : 1 ≤ poll_interval)
    (hnt : ∀ j, j * poll_interval ≤ timeout → isNonterminal (fetch j) = true) :
    ∀ fuel k, timeout + 2 ≤ fuel + k → 1 ≤ fuel →
      wait_for_job_completion fetch poll_interval timeout fuel k
        = some (.timedOut timeout) := by
  intro fuel
  induction fuel with
  | zero => intro k _ h1; omega
  | succ fuel ih =>
    intro k hsum _
    by_cases hto : timeout < k * poll_interval
    · simp [wait_for_job_completion, hto]
    · have hk : k * poll_interval ≤ timeout := le_of_not_lt hto
      have hkle : k ≤ timeout := le_trans (by simpa using Nat.mul_le_mul_left k hpi) hk
      have hfuel1 : 1 ≤ fuel := by omega
      have hrec := ih (k + 1) (by omega) hfuel1
      have hj := hnt k hk
      cases hf : fetch k with
      | err msg => simp [wait_for_job_completion, hto, hf, hrec]
      | ok d =>
        rw [hf] at hj
        cases hl : d.lookup "status" with
        | none => simp [wait_for_job_completion, hto, hf, hl, hrec]
        | some s =>
          rw [isNonterminal, hl] at hj
          simp only [Bool.and_eq_true, Bool.not_eq_true'] at hj
          have hsd : ¬(s = "DONE") := by
            intro h; rw [h] at hj; simp at hj
          have hsf : s ∉ failureStatuses := by
            intro h
            have h2 := hj.2
            rw [Bool.eq_false_iff] at h2
            exact h2 (List.contains_iff_exists_mem_beq.mpr ⟨s, h, by simp⟩)
          simp [wait_for_job_completion, hto, hf, hl, hsd, hsf, hrec]

/-- C1: when polling a batch job, a fetched status of `"DONE"`
terminates `wait_for_job_completion` with success (the final job-status
dict is returned); a fetched status in
`["FAILED_TS_TRANSCRIBE", "FAILED", "FAILED_TRANSCRIBE"]` terminates it
with a raised error; any other status value causes the loop to continue
polling. -/
theorem wait_terminal_status_dispatch (fetch : ℕ → FetchOutcome)
    (poll_interval timeout fuel k : ℕ) (d : JobDict)
    (hdl : k * poll_interval ≤ timeout) (hf : fetch k = .ok d) :
    (d.lookup "status" = some "DONE" →
      wait_for_job_completion fetch poll_interval timeout (fuel + 1) k
        = some (.completed d)) ∧
    (∀ s, d.lookup "status" = some s → s ∈ failureStatuses →
      wait_for_job_completion fetch poll_interval timeout (fuel + 1) k
        = some (.jobFailed s)) ∧
    ((∀ s, d.lookup "status" = some s → s ≠ "DONE" ∧ s ∉ failureStatuses) →
      wait_for_job_completion fetch poll_interval timeout (fuel + 1) k
        = wait_for_job_completion fetch poll_interval timeout fuel (k + 1)) := by
  have hto : ¬timeout < k * poll_interval := not_lt.mpr hdl
  refine ⟨?_, ?_, ?_⟩
  · intro hs
    simp [wait_for_job_completion, hto, hf, hs]
  · intro s hs hmem
    have hsd : s ≠ "DONE" := by
      intro h
      rw [h] at hmem
      simp [failureStatuses] at hmem
    simp [wait_for_job_completion, hto, hf, hs, hsd, hmem]
  · intro h
    cases hl : d.lookup "status" with
    | none => simp [wait_for_job_completion, hto, hf, hl]
    | some s =>
      obtain ⟨h1, h2⟩ := h s hl
      simp [wait_for_job_completion, hto, hf, hl, h1, h2]

/-- Witness for `wait_terminal_status_dispatch`: a fetch that returns
status `"DONE"` at once makes the loop return the dict. -/
theorem wait_terminal_status_dispatch_witness :
    wait_for_job_completion (fun _ => .ok [("status", "DONE")]) 2 10 1 0
      = some (.completed [("status", "DONE")]) :=
  (wait_terminal_status_dispatch (fun _ => .ok [("status", "DONE")]) 2 10 0 0
    [("status", "DONE")] (by decide) rfl).1 rfl

/-- C2: `wait_for_job_completion` raises the timeout error when no
terminal status is fetched within the caller-supplied deadline, and a
failed status fetch inside the deadline is absorbed — the loop simply
retries at the next poll tick instead of raising. -/
theorem wait_timeout_and_fetch_failures_absorbed (fetch : ℕ → FetchOutcome)
    (poll_interval timeout fuel k : ℕ) (hpi : 1 ≤ poll_interval) :
    (∀ msg, k * poll_interval ≤ timeout → fetch k = .err msg →
      wait_for_job_completion fetch poll_interval timeout (fuel + 1) k
        = wait_for_job_completion fetch poll_interval timeout fuel (k + 1)) ∧
    (timeout + 2 ≤ fuel →
      (∀ j, j * poll_interval ≤ timeout → isNonterminal (fetch j) = true) →
      wait_for_job_completion fetch poll_interval timeout fuel 0
        = some (.timedOut timeout)) := by
  constructor
  · intro msg hdl hf
    have hto : ¬timeout < k * poll_interval := not_lt.mpr hdl
    simp [wait_for_job_completion, hto, hf]
  · intro hfuel hnt
    exact wait_timeout_of_nonterminal fetch poll_interval timeout hpi hnt fuel 0
      (by omega) (by omega)

/-- Witness for `wait_timeout_and_fetch_failures_absorbed`: with every
fetch failing, the loop absorbs the failures and times out. -/
theorem wait_timeout_and_fetch_failures_absorbed_witness :
    wait_for_job_completion (fun _ => .err "boom") 1 3 6 0
      = some (.timedOut 3) :=
  (wait_timeout_and_fetch_failures_absorbed (fun _ => .err "boom") 1 3 6 0
    (by decide)).2 (by decide) (fun _ _ => rfl)

/-! ## Theorems about the benchmark statistics -/

/-- Counterexample for the claim that on an empty sample set every
reported statistic returns a defined zero: `run_benchmark` reports no
statistics at all on an empty measurement list — it prints an error and
returns failure before any statistic is computed. -/
theorem empty_sample_report_counterexample :
    benchmarkReport [] = none ∧
    ¬∃ st : BenchmarkStats, benchmarkReport [] = some st := by
  refine ⟨rfl, ?_⟩
  rintro ⟨st, h⟩
  simp [benchmarkReport] at h

/-- C5 (amended): `calculate_percentile([], p)` returns `0.0` for every
percentile argument `p`; the remaining statistics (min, max, mean,
median, standard deviation) are never evaluated on an empty sample set,
because `run_benchmark` returns failure early without computing or
reporting any statistic — so nothing raises on an empty sample set. -/
theorem empty_sample_percentile_zero_and_no_report :
    (∀ p : ℚ, calculate_percentile [] p = some 0) ∧
    benchmarkReport [] = none :=
  ⟨fun _ => rfl, rfl⟩

/-! ## Theorems about the live client -/

/-- C6: consecutive identical transcription segments are collapsed by
comparing each segment's text only against the most recently appended
transcript entry, and for the arrival sequence `["a", "a", "b"]` the
displayed transcript buffer equals `["a", "b"]`. -/
theorem consecutive_duplicate_segments_collapsed :
    (∀ (t : List String) (s : String),
        dedupAppend t s = if t.getLast? = some s then t else t ++ [s]) ∧
    (∀ s1 e1 s2 e2 s3 e3 : ℚ,
        handle_transcription [⟨"a", s1, e1⟩, ⟨"a", s2, e2⟩, ⟨"b", s3, e3⟩]
          = ["a", "b"]) := by
  constructor
  · intro t s
    rcases t with _ | ⟨a, t⟩
    · simp [dedupAppend]
    · by_cases h : (a :: t).getLast? = some s <;> simp [dedupAppend, h]
  · intro s1 e1 s2 e2 s3 e3
    rfl

/-- C7: the `task` field of the handshake sent when the socket opens is
`"translate"` exactly when the client's `translate` option is set, and
`"transcribe"` otherwise. -/
theorem handshake_task_matches_translate_flag (config : ServerConfig)
    (st : ClientState) :
    (step config st .socketOpen).sent
      = st.sent ++ [.handshake (mkAuthMessage config st.session_id)] ∧
    (config.translate = true →
      (mkAuthMessage config st.session_id).task = "translate") ∧
    (config.translate = false →
      (mkAuthMessage config st.session_id).task = "transcribe") := by
  refine ⟨rfl, ?_, ?_⟩ <;> intro h <;> simp [mkAuthMessage, h]

/-- A concrete configuration used by the witnesses. -/
def cfgExample (b : Bool) : ServerConfig :=
  { host := "localhost", port := 9090, api_key := "key", translate := b }

/-- Witness for `handshake_task_matches_translate_flag` at a concrete
configuration with `translate := true`. -/
theorem handshake_task_matches_translate_flag_witness :
    (step (cfgExample true) (initial_state "uid0") .socketOpen).sent
      = (initial_state "uid0").sent
        ++ [.handshake (mkAuthMessage (cfgExample true)
              (initial_state "uid0").session_id)] ∧
    ((cfgExample true).translate = true →
      (mkAuthMessage (cfgExample true) (initial_state "uid0").session_id).task
        = "translate") ∧
    ((cfgExample true).translate = false →
      (mkAuthMessage (cfgExample true) (initial_state "uid0").session_id).task
        = "transcribe") :=
  handshake_task_matches_translate_flag (cfgExample true) (initial_state "uid0")

/-- `on_message` never sends anything: every branch of the handler
leaves the outbound trace unchanged. -/
theorem on_message_sent (st : ClientState) (m : ServerMessage) :
    (on_message st m).sent = st.sent := by
  unfold on_message
  repeat' split <;> try rfl

/-- `on_message` rewrites the displayed transcript buffer from the
incoming non-empty segment batch alone. -/
theorem on_message_segments_displayed (st : ClientState) (m : ServerMessage)
    (segs : List TranscriptionSegment) (hseg : m.segments = some segs)
    (hne : segs ≠ []) :
    (on_message st m).displayed = handle_transcription segs := by
  unfold on_message
  rw [hseg]
  simp only [hne, if_true, ne_eq, not_false_iff]

/-- C10: after any single inbound batch of transcription segments, the
displayed transcript buffer is rebuilt from that batch alone (the same
batch yields the same buffer whatever the prior client state, so
deduplication never sees earlier batches), and contains at most the 3
most recent deduplicated segment texts, the older ones discarded. -/
theorem display_rebuilt_per_batch_last_three (st1 st2 : ClientState)
    (m : ServerMessage) (segs : List TranscriptionSegment)
    (hseg : m.segments = some segs) (hne : segs ≠ []) :
    (on_message st1 m).displayed = handle_transcription segs ∧
    (on_message st1 m).displayed = (on_message st2 m).displayed ∧
    (handle_transcription segs).length ≤ 3 ∧
    handle_transcription segs
      = (dedupTranscript segs).drop ((dedupTranscript segs).length - 3) ∧
    (dedupTranscript segs).drop ((dedupTranscript segs).length - 3)
      <:+ dedupTranscript segs := by
  have h1 := on_message_segments_displayed st1 m segs hseg hne
  have h2 := on_message_segments_displayed st2 m segs hseg hne
  have hdef : handle_transcription segs
      = if 3 < (dedupTranscript segs).length then
          (dedupTranscript segs).drop ((dedupTranscript segs).length - 3)
        else dedupTranscript segs := rfl
  refine ⟨h1, h1.trans h2.symm, ?_, ?_, List.drop_suffix _ _⟩
  · rw [hdef]
    split
    · rw [List.length_drop]
      omega
    · omega
  · rw [hdef]
    split
    · rfl
    · rename_i h
      have h0 : (dedupTranscript segs).length - 3 = 0 := by omega
      rw [h0, List.drop_zero]

/-- A concrete server message carrying one transcription segment, used
by the witnesses. -/
def msgExample : ServerMessage := { segments := some [⟨"x", 0, 1⟩] }

/-- Witness for `display_rebuilt_per_batch_last_three` on a one-segment
batch, against two different prior states. -/
theorem display_rebuilt_per_batch_last_three_witness :
    (on_message (initial_state "u") msgExample).displayed
      = handle_transcription [⟨"x", 0, 1⟩] ∧
    (on_message (initial_state "u") msgExample).displayed
      = (on_message { initial_state "v" with displayed := ["old"] }
          msgExample).displayed ∧
    (handle_transcription [⟨"x", 0, 1⟩]).length ≤ 3 ∧
    handle_transcription [⟨"x", 0, 1⟩]
      = (dedupTranscript [⟨"x", 0, 1⟩]).drop
          ((dedupTranscript [⟨"x", 0, 1⟩]).length - 3) ∧
    (dedupTranscript [⟨"x", 0, 1⟩]).drop
        ((dedupTranscript [⟨"x", 0, 1⟩]).length - 3)
      <:+ dedupTranscript [⟨"x", 0, 1⟩] :=
  display_rebuilt_per_batch_last_three (initial_state "u")
    { initial_state "v" with displayed := ["old"] } msgExample
    [⟨"x", 0, 1⟩] rfl (by decide)

/-- Before the socket opens nothing has happened: a trace containing
neither the open callback nor a server message leaves the freshly
constructed client state unchanged (a microphone read sends nothing
while `is_recording` is false). -/
theorem runClient_inert_of_no_open_no_message (config : ServerConfig)
    (pre : List ClientEvent) :
    ∀ st : ClientState, st.is_recording = false →
      (∀ e ∈ pre, e.isOpen = false ∧ e.isServerMessage = false) →
      runClient config st pre = st := by
  induction pre with
  | nil => intro st _ _; rfl
  | cons e rest ih =>
    intro st hrec h
    have he := h e (List.mem_cons_self e rest)
    cases e with
    | socketOpen => simp [ClientEvent.isOpen] at he
    | serverMessage m => simp [ClientEvent.isServerMessage] at he
    | audioChunk d =>
      have hstep : step config st (.audioChunk d) = st := by
        simp [step, hrec]
      calc runClient config st (.audioChunk d :: rest)
          = runClient config (step config st (.audioChunk d)) rest := rfl
        _ = runClient config st rest := by rw [hstep]
        _ = st := ih st hrec (fun e he' => h e (List.mem_cons_of_mem _ he'))

/-- After the socket has opened, a trace without further open events
only ever appends binary audio chunks to the outbound trace. -/
theorem runClient_appends_only_chunks (config : ServerConfig)
    (post : List ClientEvent) :
    ∀ st : ClientState, (∀ e ∈ post, e.isOpen = false) →
      ∃ l, (runClient config st post).sent = st.sent ++ l ∧
        ∀ x ∈ l, x.isChunk = true := by
  induction post with
  | nil =>
    intro st _
    exact ⟨[], (List.append_nil _).symm, by simp⟩
  | cons e rest ih =>
    intro st h
    have hrest : ∀ e ∈ rest, e.isOpen = false :=
      fun e he => h e (List.mem_cons_of_mem _ he)
    cases e with
    | socketOpen =>
      have := h _ (List.mem_cons_self _ rest)
      simp [ClientEvent.isOpen] at this
    | serverMessage m =>
      obtain ⟨l, hl, hc⟩ := ih (on_message st m) hrest
      refine ⟨l, ?_, hc⟩
      calc (runClient config st (.serverMessage m :: rest)).sent
          = (runClient config (on_message st m) rest).sent := rfl
        _ = (on_message st m).sent ++ l := hl
        _ = st.sent ++ l := by rw [on_message_sent]
    | audioChunk d =>
      by_cases hrec : st.is_recording
      · obtain ⟨l, hl, hc⟩ := ih { st with sent := st.sent ++ [.chunk d] } hrest
        refine ⟨.chunk d :: l, ?_, ?_⟩
        · calc (runClient config st (.audioChunk d :: rest)).sent
              = (runClient config (step config st (.audioChunk d)) rest).sent := rfl
            _ = (runClient config { st with sent := st.sent ++ [.chunk d] } rest).sent := by
                simp [step, hrec]
            _ = (st.sent ++ [.chunk d]) ++ l := hl
            _ = st.sent ++ (.chunk d :: l) := by simp
        · intro x hx
          rcases List.mem_cons.mp hx with rfl | hx'
          · rfl
          · exact hc x hx'
      · obtain ⟨l, hl, hc⟩ := ih st hrest
        refine ⟨l, ?_, hc⟩
        calc (runClient config st (.audioChunk d :: rest)).sent
            = (runClient config (step config st (.audioChunk d)) rest).sent := rfl
          _ = (runClient config st rest).sent := by simp [step, hrec]
          _ = st.sent ++ l := hl

/-- C8: on every connection trace — events before the open callback
contain no server message (the transport delivers messages only on an
open socket) and the socket opens once — the JSON handshake is sent
exactly once, immediately when the socket opens, and every binary audio
chunk sent on the connection comes after it: the final outbound trace
is the handshake followed by chunks only. -/
theorem handshake_precedes_chunks (config : ServerConfig) (uid : String)
    (pre post : List ClientEvent)
    (hpre : ∀ e ∈ pre, e.isOpen = false ∧ e.isServerMessage = false)
    (hpost : ∀ e ∈ post, e.isOpen = false) :
    ∃ l, (runClient config (initial_state uid)
            (pre ++ ClientEvent.socketOpen :: post)).sent
          = OutMsg.handshake (mkAuthMessage config uid) :: l
        ∧ ∀ x ∈ l, x.isChunk = true := by
  have hpre' : runClient config (initial_state uid) pre = initial_state uid :=
    runClient_inert_of_no_open_no_message config pre (initial_state uid) rfl hpre
  have hsplit : runClient config (initial_state uid)
      (pre ++ ClientEvent.socketOpen :: post)
      = runClient config
          (step config (initial_state uid) .socketOpen) post := by
    unfold runClient
    rw [List.foldl_append, show List.foldl (step config) (initial_state uid) pre
          = initial_state uid from hpre']
    rfl
  obtain ⟨l, hl, hc⟩ := runClient_appends_only_chunks config post
    (step config (initial_state uid) .socketOpen) hpost
  refine ⟨l, ?_, hc⟩
  rw [hsplit, hl]
  rfl

/-- A concrete `SERVER_READY` message, used by the witnesses. -/
def readyMsg : ServerMessage := { message := some "SERVER_READY" }

/-- Witness for `handshake_precedes_chunks`: a microphone read before
the open, then the open, a `SERVER_READY` message and two chunks. -/
theorem handshake_precedes_chunks_witness :
    ∃ l, (runClient (cfgExample false) (initial_state "u")
            ([ClientEvent.audioChunk 7]
              ++ ClientEvent.socketOpen
                :: [ClientEvent.serverMessage readyMsg,
                    ClientEvent.audioChunk 1, ClientEvent.audioChunk 2])).sent
          = OutMsg.handshake (mkAuthMessage (cfgExample false) "u") :: l
        ∧ ∀ x ∈ l, x.isChunk = true :=
  handshake_precedes_chunks (cfgExample false) "u"
    [ClientEvent.audioChunk 7]
    [ClientEvent.serverMessage readyMsg,
     ClientEvent.audioChunk 1, ClientEvent.audioChunk 2]
    (by decide) (by decide)

/-! ## The percentile estimator: interpolation lemmas -/

/-- The value `calculate_percentile` interpolates at rank `t` of the
sorted list `s` (mathematical form of lines 28–35 of
`benchmark_ttft.py`, with `getD` in place of checked indexing). -/
def interpAt (s : List ℚ) (t : ℚ) : ℚ :=
  if s.length ≤ (⌊t⌋).toNat + 1 then s.getD (⌊t⌋).toNat 0
  else
    s.getD (⌊t⌋).toNat 0 * (1 - (t - (⌊t⌋ : ℚ)))
      + s.getD ((⌊t⌋).toNat + 1) 0 * (t - (⌊t⌋ : ℚ))

/-- A nonnegative in-range integer index dereferences successfully in
the Python indexing model. -/
theorem pyIndex_eq_getD (xs : List ℚ) (i : ℤ) (h0 : 0 ≤ i)
    (h1 : i < (xs.length : ℤ)) :
    pyIndex xs i = some (xs.getD i.toNat 0) := by
  have hlt : i.toNat < xs.length := by omega
  rw [pyIndex, if_neg (not_lt.mpr h0), List.getElem?_eq_getElem hlt,
    List.getD_eq_getElem xs 0 hlt]

/-- In a sorted list, values are monotone in the index. -/
theorem sorted_getD_mono (s : List ℚ) (hs : List.Sorted (· ≤ ·) s) {i j : ℕ}
    (hij : i ≤ j) (hj : j < s.length) :
    s.getD i 0 ≤ s.getD j 0 := by
  have hi : i < s.length := lt_of_le_of_lt hij hj
  have h := hs.rel_get_of_le (a := ⟨i, hi⟩) (b := ⟨j, hj⟩)
    (by simpa using hij)
  rw [List.getD_eq_getElem s 0 hi, List.getD_eq_getElem s 0 hj]
  simpa [List.get_eq_getElem] using h

/-- The interpolated value at rank `t` is at least the sorted value at
index `⌊t⌋`. -/
theorem interpAt_ge (s : List ℚ) (hs : List.Sorted (· ≤ ·) s) (t : ℚ) :
    s.getD (⌊t⌋).toNat 0 ≤ interpAt s t := by
  unfold interpAt
  split
  · exact le_refl _
  · rename_i h
    have hl1 : (⌊t⌋).toNat + 1 < s.length := by omega
    have hadj : s.getD (⌊t⌋).toNat 0 ≤ s.getD ((⌊t⌋).toNat + 1) 0 :=
      sorted_getD_mono s hs (Nat.le_succ _) hl1
    have hw0 : 0 ≤ t - (⌊t⌋ : ℚ) := sub_nonneg.mpr (Int.floor_le t)
    nlinarith [mul_nonneg (sub_nonneg.mpr hadj) hw0]

/-- When index `⌊t⌋ + 1` is still in range, the interpolated value at
rank `t` is at most the sorted value there. -/
theorem interpAt_le (s : List ℚ) (hs : List.Sorted (· ≤ ·) s) (t : ℚ)
    (hl1 : (⌊t⌋).toNat + 1 < s.length) :
    interpAt s t ≤ s.getD ((⌊t⌋).toNat + 1) 0 := by
  unfold interpAt
  rw [if_neg (by omega)]
  have hadj : s.getD (⌊t⌋).toNat 0 ≤ s.getD ((⌊t⌋).toNat + 1) 0 :=
    sorted_getD_mono s hs (Nat.le_succ _) hl1
  have hw1 : t - (⌊t⌋ : ℚ) ≤ 1 := by
    have := Int.lt_floor_add_one t
    linarith
  nlinarith [mul_nonneg (sub_nonneg.mpr hadj) (sub_nonneg.mpr hw1)]

/-- Monotonicity of the nearest-rank interpolation over a sorted list:
between rank `0` and rank `length - 1`, a larger rank interpolates to a
value at least as large. -/
theorem interpAt_mono (s : List ℚ) (hs : List.Sorted (· ≤ ·) s)
    (t1 t2 : ℚ) (h0 : 0 ≤ t1) (h12 : t1 ≤ t2)
    (h2 : t2 ≤ (s.length : ℚ) - 1) :
    interpAt s t1 ≤ interpAt s t2 := by
  have h02 : 0 ≤ t2 := le_trans h0 h12
  have hf1 : (0 : ℤ) ≤ ⌊t1⌋ := Int.floor_nonneg.mpr h0
  have hf2 : (0 : ℤ) ≤ ⌊t2⌋ := Int.floor_nonneg.mpr h02
  have hcast : ((s.length : ℚ) - 1) = (((s.length : ℤ) - 1 : ℤ) : ℚ) := by
    push_cast
    ring
  have hfl2 : ⌊t2⌋ ≤ (s.length : ℤ) - 1 := by
    have := Int.floor_le_floor (α := ℚ) h2
    rwa [hcast, Int.floor_intCast] at this
  have hl1c : ((⌊t1⌋).toNat : ℤ) = ⌊t1⌋ := Int.toNat_of_nonneg hf1
  have hl2c : ((⌊t2⌋).toNat : ℤ) = ⌊t2⌋ := Int.toNat_of_nonneg hf2
  have hl12 : (⌊t1⌋).toNat ≤ (⌊t2⌋).toNat :=
    Int.toNat_le_toNat (Int.floor_le_floor h12)
  have hl2lt : (⌊t2⌋).toNat < s.length := by omega
  rcases eq_or_lt_of_le hl12 with heq | hlt
  · have hfe : (⌊t1⌋ : ℚ) = (⌊t2⌋ : ℚ) := by
      have : ⌊t1⌋ = ⌊t2⌋ := by omega
      exact_mod_cast congrArg (fun z : ℤ => (z : ℚ)) this
    unfold interpAt
    rw [heq, hfe]
    split
    · exact le_refl _
    · rename_i h
      have hadj : s.getD (⌊t2⌋).toNat 0 ≤ s.getD ((⌊t2⌋).toNat + 1) 0 :=
        sorted_getD_mono s hs (Nat.le_succ _) (by omega)
      nlinarith [mul_nonneg (sub_nonneg.mpr hadj) (sub_nonneg.mpr h12)]
  · have hl1p1 : (⌊t1⌋).toNat + 1 ≤ (⌊t2⌋).toNat := hlt
    calc interpAt s t1
        ≤ s.getD ((⌊t1⌋).toNat + 1) 0 :=
          interpAt_le s hs t1 (lt_of_le_of_lt hl1p1 hl2lt)
      _ ≤ s.getD (⌊t2⌋).toNat 0 := sorted_getD_mono s hs hl1p1 hl2lt
      _ ≤ interpAt s t2 := interpAt_ge s hs t2

/-- On non-empty data and a percentile argument in `[0, 100]`, both
list dereferences of `calculate_percentile` are in range and the result
is the interpolation `interpAt` over the sorted data at rank
`(len - 1) * p / 100`. -/
theorem calculate_percentile_eq_interpAt (data : List ℚ) (p : ℚ)
    (hne : data ≠ []) (h0 : 0 ≤ p) (h1 : p ≤ 100) :
    calculate_percentile data p
      = some (interpAt (data.insertionSort (· ≤ ·))
          (((data.length : ℚ) - 1) * p / 100)) := by
  have hn : 1 ≤ data.length := List.length_pos.mpr hne
  have hslen : (data.insertionSort (· ≤ ·)).length = data.length :=
    List.length_insertionSort _ _
  have hnn : (0 : ℚ) ≤ (data.length : ℚ) - 1 := by
    have : (1 : ℚ) ≤ (data.length : ℚ) := by exact_mod_cast hn
    linarith
  have ht0 : 0 ≤ ((data.length : ℚ) - 1) * p / 100 :=
    div_nonneg (mul_nonneg hnn h0) (by norm_num)
  have ht1 : ((data.length : ℚ) - 1) * p / 100 ≤ (data.length : ℚ) - 1 := by
    have h100 : p / 100 ≤ 1 := (div_le_one (by norm_num)).mpr h1
    calc ((data.length : ℚ) - 1) * p / 100
        = ((data.length : ℚ) - 1) * (p / 100) := by ring
      _ ≤ ((data.length : ℚ) - 1) * 1 := mul_le_mul_of_nonneg_left h100 hnn
      _ = (data.length : ℚ) - 1 := mul_one _
  have htr : truncQ (((data.length : ℚ) - 1) * p / 100)
      = ⌊((data.length : ℚ) - 1) * p / 100⌋ := by
    rw [truncQ, if_pos ht0]
  have hf0 : (0 : ℤ) ≤ ⌊((data.length : ℚ) - 1) * p / 100⌋ :=
    Int.floor_nonneg.mpr ht0
  have hcast : ((data.length : ℚ) - 1) = (((data.length : ℤ) - 1 : ℤ) : ℚ) := by
    push_cast
    ring
  have hfl : ⌊((data.length : ℚ) - 1) * p / 100⌋ ≤ (data.length : ℤ) - 1 := by
    have hmono := Int.floor_le_floor (α := ℚ) ht1
    have hval : ⌊(data.length : ℚ) - 1⌋ = (data.length : ℤ) - 1 := by
      rw [hcast, Int.floor_intCast]
    rw [hval] at hmono
    exact hmono
  have hlc : ((⌊((data.length : ℚ) - 1) * p / 100⌋).toNat : ℤ)
      = ⌊((data.length : ℚ) - 1) * p / 100⌋ := Int.toNat_of_nonneg hf0
  have hemp : data.isEmpty = false := by
    simpa [List.isEmpty_iff] using hne
  simp only [calculate_percentile, hemp, Bool.false_eq_true, if_false, hslen, htr]
  by_cases hbr : (data.length : ℤ) ≤ ⌊((data.length : ℚ) - 1) * p / 100⌋ + 1
  · rw [if_pos hbr,
      pyIndex_eq_getD _ _ hf0 (by rw [hslen]; omega),
      interpAt, if_pos (by omega)]
  · rw [if_neg hbr,
      pyIndex_eq_getD _ _ hf0 (by rw [hslen]; omega),
      pyIndex_eq_getD _ _ (by omega) (by rw [hslen]; omega),
      interpAt, if_neg (by rw [hslen]; omega)]
    have htn : (⌊((data.length : ℚ) - 1) * p / 100⌋ + 1).toNat
        = (⌊((data.length : ℚ) - 1) * p / 100⌋).toNat + 1 := by omega
    rw [htn]
    rfl

/-- The truncated rank computed by `calculate_percentile` coincides
with the floor and lies in `[0, len - 1]` when the percentile argument
lies in `[0, 100]` and the data is non-empty. -/
theorem percentile_rank_bounds (data : List ℚ) (p : ℚ) (hne : data ≠ [])
    (h0 : 0 ≤ p) (h1 : p ≤ 100) :
    truncQ (((data.length : ℚ) - 1) * p / 100)
      = ⌊((data.length : ℚ) - 1) * p / 100⌋ ∧
    0 ≤ ⌊((data.length : ℚ) - 1) * p / 100⌋ ∧
    ⌊((data.length : ℚ) - 1) * p / 100⌋ ≤ (data.length : ℤ) - 1 := by
  have hn : 1 ≤ data.length := List.length_pos.mpr hne
  have hnn : (0 : ℚ) ≤ (data.length : ℚ) - 1 := by
    have : (1 : ℚ) ≤ (data.length : ℚ) := by exact_mod_cast hn
    linarith
  have ht0 : 0 ≤ ((data.length : ℚ) - 1) * p / 100 :=
    div_nonneg (mul_nonneg hnn h0) (by norm_num)
  have ht1 : ((data.length : ℚ) - 1) * p / 100 ≤ (data.length : ℚ) - 1 := by
    have h100 : p / 100 ≤ 1 := (div_le_one (by norm_num)).mpr h1
    calc ((data.length : ℚ) - 1) * p / 100
        = ((data.length : ℚ) - 1) * (p / 100) := by ring
      _ ≤ ((data.length : ℚ) - 1) * 1 := mul_le_mul_of_nonneg_left h100 hnn
      _ = (data.length : ℚ) - 1 := mul_one _
  refine ⟨by rw [truncQ, if_pos ht0], Int.floor_nonneg.mpr ht0, ?_⟩
  have hmono := Int.floor_le_floor (α := ℚ) ht1
  have hval : ⌊(data.length : ℚ) - 1⌋ = (data.length : ℤ) - 1 := by
    have hcast : ((data.length : ℚ) - 1) = (((data.length : ℤ) - 1 : ℤ) : ℚ) := by
      push_cast
      ring
    rw [hcast, Int.floor_intCast]
  rw [hval] at hmono
  exact hmono

/-- C9: for non-empty data and `0 ≤ p ≤ 100`, every list dereference
inside `calculate_percentile` is in bounds — the truncated lower rank
satisfies `0 ≤ lower < len`, the upper rank is dereferenced
successfully whenever it is below `len` (the only case in which the
code dereferences it), and the function returns a value rather than an
index error. -/
theorem percentile_index_in_bounds (data : List ℚ) (p : ℚ)
    (hne : data ≠ []) (h0 : 0 ≤ p) (h1 : p ≤ 100) :
    0 ≤ truncQ (((data.length : ℚ) - 1) * p / 100) ∧
    truncQ (((data.length : ℚ) - 1) * p / 100) < (data.length : ℤ) ∧
    (pyIndex (data.insertionSort (· ≤ ·))
        (truncQ (((data.length : ℚ) - 1) * p / 100))).isSome = true ∧
    (truncQ (((data.length : ℚ) - 1) * p / 100) + 1 < (data.length : ℤ) →
      (pyIndex (data.insertionSort (· ≤ ·))
          (truncQ (((data.length : ℚ) - 1) * p / 100) + 1)).isSome = true) ∧
    (calculate_percentile data p).isSome = true := by
  obtain ⟨htr, hf0, hfl⟩ := percentile_rank_bounds data p hne h0 h1
  have hslen : (data.insertionSort (· ≤ ·)).length = data.length :=
    List.length_insertionSort _ _
  refine ⟨by omega, by omega, ?_, ?_, ?_⟩
  · rw [htr, pyIndex_eq_getD _ _ hf0 (by rw [hslen]; omega)]
    rfl
  · intro hup
    rw [htr] at hup ⊢
    rw [pyIndex_eq_getD _ _ (by omega) (by rw [hslen]; omega)]
    rfl
  · rw [calculate_percentile_eq_interpAt data p hne h0 h1]
    rfl

/-- Witness for `percentile_index_in_bounds` on a concrete unsorted
list at the 95th percentile. -/
theorem percentile_index_in_bounds_witness :
    0 ≤ truncQ (((([3, 1, 2] : List ℚ).length : ℚ) - 1) * 95 / 100) ∧
    truncQ (((([3, 1, 2] : List ℚ).length : ℚ) - 1) * 95 / 100)
      < (([3, 1, 2] : List ℚ).length : ℤ) ∧
    (pyIndex (([3, 1, 2] : List ℚ).insertionSort (· ≤ ·))
        (truncQ (((([3, 1, 2] : List ℚ).length : ℚ) - 1) * 95 / 100))).isSome
      = true ∧
    (truncQ (((([3, 1, 2] : List ℚ).length : ℚ) - 1) * 95 / 100) + 1
        < (([3, 1, 2] : List ℚ).length : ℤ) →
      (pyIndex (([3, 1, 2] : List ℚ).insertionSort (· ≤ ·))
          (truncQ (((([3, 1, 2] : List ℚ).length : ℚ) - 1) * 95 / 100) + 1)).isSome
        = true) ∧
    (calculate_percentile [3, 1, 2] 95).isSome = true :=
  percentile_index_in_bounds [3, 1, 2] 95 (by decide) (by norm_num) (by norm_num)

/-- C4: `calculate_percentile` is monotonically non-decreasing in its
percentile argument over `[0, 100]` for a fixed sample list: both calls
return values and the value at the smaller argument is no larger. -/
theorem percentile_monotone (data : List ℚ) (p1 p2 : ℚ)
    (h0 : 0 ≤ p1) (h12 : p1 ≤ p2) (h2 : p2 ≤ 100) :
    ∃ v1 v2, calculate_percentile data p1 = some v1 ∧
      calculate_percentile data p2 = some v2 ∧ v1 ≤ v2 := by
  rcases eq_or_ne data [] with rfl | hne
  · exact ⟨0, 0, rfl, rfl, le_refl 0⟩
  · have hb1 := calculate_percentile_eq_interpAt data p1 hne h0 (le_trans h12 h2)
    have hb2 := calculate_percentile_eq_interpAt data p2 hne (le_trans h0 h12) h2
    refine ⟨_, _, hb1, hb2, ?_⟩
    have hn : 1 ≤ data.length := List.length_pos.mpr hne
    have hslen : (data.insertionSort (· ≤ ·)).length = data.length :=
      List.length_insertionSort _ _
    have hnn : (0 : ℚ) ≤ (data.length : ℚ) - 1 := by
      have : (1 : ℚ) ≤ (data.length : ℚ) := by exact_mod_cast hn
      linarith
    refine interpAt_mono _ (List.sorted_insertionSort _ data) _ _
      (div_nonneg (mul_nonneg hnn h0) (by norm_num)) ?_ ?_
    · have := mul_le_mul_of_nonneg_left h12 hnn
      linarith
    · rw [hslen]
      have h100 : p2 / 100 ≤ 1 := (div_le_one (by norm_num)).mpr h2
      calc ((data.length : ℚ) - 1) * p2 / 100
          = ((data.length : ℚ) - 1) * (p2 / 100) := by ring
        _ ≤ ((data.length : ℚ) - 1) * 1 := mul_le_mul_of_nonneg_left h100 hnn
        _ = (data.length : ℚ) - 1 := mul_one _

/-- Witness for `percentile_monotone` on `[10, 20, 30, 40]` between the
0th and 50th percentile. -/
theorem percentile_monotone_witness :
    ∃ v1 v2, calculate_percentile [10, 20, 30, 40] 0 = some v1 ∧
      calculate_percentile [10, 20, 30, 40] 50 = some v2 ∧ v1 ≤ v2 :=
  percentile_monotone [10, 20, 30, 40] 0 50 (by norm_num) (by norm_num)
    (by norm_num)

/-- An in-range `getD` value is a member of the list. -/
theorem getD_mem (s : List ℚ) (i : ℕ) (h : i < s.length) :
    s.getD i 0 ∈ s := by
  rw [List.getD_eq_getElem s 0 h]
  exact List.getElem_mem h

/-- Every member of a sorted list is bounded below by the entry at
index `0` and above by the entry at the last index. -/
theorem sorted_getD_bounds (s : List ℚ) (hs : List.Sorted (· ≤ ·) s)
    (b : ℚ) (hb : b ∈ s) :
    s.getD 0 0 ≤ b ∧ b ≤ s.getD (s.length - 1) 0 := by
  obtain ⟨j, hj⟩ := List.mem_iff_get.mp hb
  have hlow := sorted_getD_mono s hs (Nat.zero_le j.1) j.2
  have hjlt := j.2
  have hhigh := sorted_getD_mono s hs (show j.1 ≤ s.length - 1 by omega)
    (show s.length - 1 < s.length by omega)
  rw [List.getD_eq_getElem s 0 j.2, ← List.get_eq_getElem, hj] at hlow hhigh
  exact ⟨hlow, hhigh⟩

/-- C3: for every non-empty sample list, `calculate_percentile` at
argument `0` returns the minimum of the data and at argument `100` the
maximum. -/
theorem percentile_endpoints (data : List ℚ) (hne : data ≠ []) :
    calculate_percentile data 0 = data.min? ∧
    calculate_percentile data 100 = data.max? := by
  have hn : 1 ≤ data.length := List.length_pos.mpr hne
  have hslen : (data.insertionSort (· ≤ ·)).length = data.length :=
    List.length_insertionSort _ _
  have hs := List.sorted_insertionSort (· ≤ ·) data
  have hperm := List.perm_insertionSort (· ≤ ·) data
  haveI : Std.Antisymm ((· : ℚ) ≤ ·) := ⟨fun h1 h2 => le_antisymm h1 h2⟩
  constructor
  · rw [calculate_percentile_eq_interpAt data 0 hne (le_refl 0) (by norm_num)]
    have ht : ((data.length : ℚ) - 1) * 0 / 100 = 0 := by ring
    rw [ht]
    have hval : interpAt (data.insertionSort (· ≤ ·)) 0
        = (data.insertionSort (· ≤ ·)).getD 0 0 := by
      unfold interpAt
      rw [show ((⌊(0 : ℚ)⌋).toNat) = 0 from by norm_num, Int.floor_zero]
      split
      · rfl
      · push_cast
        ring
    rw [hval]
    symm
    rw [List.min?_eq_some_iff (fun a => le_refl a) (fun a b => min_choice a b)
      (fun a b c => le_min_iff)]
    constructor
    · exact hperm.mem_iff.mp (getD_mem _ 0 (by omega))
    · intro b hb
      exact (sorted_getD_bounds _ hs b (hperm.mem_iff.mpr hb)).1
  · rw [calculate_percentile_eq_interpAt data 100 hne (by norm_num) (le_refl 100)]
    have ht : ((data.length : ℚ) - 1) * 100 / 100 = (data.length : ℚ) - 1 := by
      ring
    rw [ht]
    have hfi : ⌊(data.length : ℚ) - 1⌋ = (data.length : ℤ) - 1 := by
      have hcast : ((data.length : ℚ) - 1) = (((data.length : ℤ) - 1 : ℤ) : ℚ) := by
        push_cast
        ring
      rw [hcast, Int.floor_intCast]
    have htn : (⌊(data.length : ℚ) - 1⌋).toNat = data.length - 1 := by
      rw [hfi]
      omega
    have hval : interpAt (data.insertionSort (· ≤ ·)) ((data.length : ℚ) - 1)
        = (data.insertionSort (· ≤ ·)).getD (data.length - 1) 0 := by
      unfold interpAt
      rw [htn, if_pos (by omega)]
    rw [hval]
    symm
    rw [List.max?_eq_some_iff (fun a => le_refl a) (fun a b => max_choice a b)
      (fun a b c => max_le_iff)]
    constructor
    · exact hperm.mem_iff.mp (getD_mem _ (data.length - 1) (by omega))
    · intro b hb
      have := (sorted_getD_bounds _ hs b (hperm.mem_iff.mpr hb)).2
      rwa [hslen] at this

/-- Witness for `percentile_endpoints` on `[10, 20, 30, 40]`. -/
theorem percentile_endpoints_witness :
    calculate_percentile [10, 20, 30, 40] 0 = ([10, 20, 30, 40] : List ℚ).min? ∧
    calculate_percentile [10, 20, 30, 40] 100 = ([10, 20, 30, 40] : List ℚ).max? :=
  percentile_endpoints [10, 20, 30, 40] (by decide)

end TsClient
